import Mathlib

/-!
Verification of the notification core of the birthday reminder backend.

Shallow embedding of:

* services/birthdayService.js — checkUpcomingBirthdays (the scan cycle)
  and scheduleBirthdayChecks (the scheduler);
* services/notificationService.js — createNotification and
  createBirthdayReminder (the notification factory);
* models/Birthday.js, models/Notification.js — the record shapes.

Modelling conventions:

* JavaScript Date values in the scanned code are always local midnights
  (setHours(0,0,0,0) or the Date(year, month, day) constructor), so we
  represent them as civil dates together with a day-number timestamp.  The
  embedding assumes a fixed UTC-like zone offset (no DST transitions), so
  a calendar day is exactly 86 400 000 ms.
* Months are 0-based throughout, matching the JavaScript getMonth
  convention (0 = January, 1 = February, 2 = March, ...).
* The Date(y, m, d) constructor normalizes out-of-range day values by
  rolling into the following month (February 29 of a non-leap year
  becomes March 1); normCivil implements this for the argument ranges the
  scan can produce (0 ≤ m ≤ 11, 1 ≤ d ≤ 31), where a single rollover
  step suffices.
* One scan cycle uses a single clock reading `now` (ms since epoch) for
  all of its Date.now() calls and assigned createdAt timestamps.
-/

/-- Gregorian leap-year test (the calendar used by JavaScript Date). -/
def isLeap (y : ℤ) : Bool :=
  (y % 4 == 0 && y % 100 != 0) || (y % 400 == 0)

/-- Number of days in month `m` (0-based) of year `y`. -/
def daysInMonth (y m : ℤ) : ℤ :=
  if m = 1 then (if isLeap y then 29 else 28)
  else if m = 3 ∨ m = 5 ∨ m = 8 ∨ m = 10 then 30
  else 31

/-- The extra day a leap year inserts after February. -/
def leapDay (y : ℤ) : ℤ := if isLeap y then 1 else 0

/-- Number of days in the months strictly before month `m` (0-based) of
year `y`, for `0 ≤ m ≤ 11`. -/
def daysBeforeMonth (y m : ℤ) : ℤ :=
  if m ≤ 0 then 0
  else if m = 1 then 31
  else if m = 2 then 59 + leapDay y
  else if m = 3 then 90 + leapDay y
  else if m = 4 then 120 + leapDay y
  else if m = 5 then 151 + leapDay y
  else if m = 6 then 181 + leapDay y
  else if m = 7 then 212 + leapDay y
  else if m = 8 then 243 + leapDay y
  else if m = 9 then 273 + leapDay y
  else if m = 10 then 304 + leapDay y
  else 334 + leapDay y

/-- Number of leap years in the interval from year 0 (inclusive) to year
`y` (exclusive), for `y ≥ 0`. -/
def leapsBefore (y : ℤ) : ℤ :=
  (y + 3) / 4 - (y + 99) / 100 + (y + 399) / 400

/-- Days from the calendar origin (January 1 of year 0) to January 1 of
year `y`. -/
def daysBeforeYear (y : ℤ) : ℤ :=
  365 * y + leapsBefore y

/-- A civil calendar date; `month` is 0-based as in JavaScript. -/
structure CivilDate where
  year : ℤ
  month : ℤ
  day : ℤ
deriving DecidableEq, Repr

/-- Linear day number of a civil date (an affine image of the JavaScript
timestamp, valid for comparisons and differences). -/
def toDayNum (c : CivilDate) : ℤ :=
  daysBeforeYear c.year + daysBeforeMonth c.year c.month + (c.day - 1)

/-- Milliseconds in one calendar day of the fixed-offset model. -/
def msPerDay : ℤ := 86400000

/-- The JavaScript timestamp (ms) of the local midnight of a civil
date. -/
def jsTime (c : CivilDate) : ℤ := msPerDay * toDayNum c

/-- Semantics of the constructor Date(y, m, d) for `0 ≤ m ≤ 11` and
`1 ≤ d ≤ 31`: an out-of-range day rolls into the next month (one step
suffices in this range).  The `m = 11` fallback never fires for `d ≤ 31`
since December has 31 days. -/
def normCivil (y m d : ℤ) : CivilDate :=
  if d ≤ daysInMonth y m then ⟨y, m, d⟩
  else if m < 11 then ⟨y, m + 1, d - daysInMonth y m⟩
  else ⟨y + 1, 0, d - 31⟩

/-- A well-formed civil date of a non-negative year. -/
def ValidCivil (c : CivilDate) : Prop :=
  0 ≤ c.year ∧ 0 ≤ c.month ∧ c.month ≤ 11 ∧ 1 ≤ c.day ∧
    c.day ≤ daysInMonth c.year c.month

instance (c : CivilDate) : Decidable (ValidCivil c) := by
  unfold ValidCivil; infer_instance

/-- Occurrence calculator, services/birthdayService.js lines 169 to 177:
combine the year of `today` with the stored month/day of the subject; if
the result is strictly before `today` (timestamp comparison
nextBirthday < today), apply setFullYear(year + 1), which re-normalizes
the (month, day) pair in the new year. -/
def nextOccurrence (today : CivilDate) (bm bd : ℤ) : CivilDate :=
  let nb := normCivil today.year bm bd
  if jsTime nb < jsTime today then normCivil (today.year + 1) nb.month nb.day
  else nb

/-- Integer ceiling division for a positive divisor (Math.ceil of the real
quotient). -/
def ceilDiv (a b : ℤ) : ℤ := -((-a) / b)

/-- Day-count computation, services/birthdayService.js line 180:
Math.ceil((nextBirthday - today) / (1000 * 60 * 60 * 24)). -/
def daysUntilOf (today : CivilDate) (bm bd : ℤ) : ℤ :=
  ceilDiv (jsTime (nextOccurrence today bm bd) - jsTime today) msPerDay

/-- An apostrophe character, as used in the factory message strings. -/
def apos : String := String.singleton (Char.ofNat 39)

/-- Birthday record (models/Birthday.js): the fields the notification core
reads, plus the fields the claims mention.  `month` and `day` are the
getMonth() / getDate() values of the stored date. -/
structure BirthdayRec where
  id : ℕ
  name : String
  month : ℤ
  day : ℤ
  notifyBefore : ℤ
  allowNotifications : Bool
deriving DecidableEq, Repr

/-- A user together with its populated birthday list
(User.find().populate with the birthdays field).  The User model file
itself is not among the scanned sources; per spec §6 the enumeration
supplies every subject of the account together with its flags,
unfiltered. -/
structure UserRec where
  id : ℕ
  birthdays : List BirthdayRec
deriving DecidableEq, Repr

/-- Notification record (models/Notification.js).  The string-keyed
metadata map of the schema is modelled as an association list; `createdAt`
is the ms timestamp assigned at insertion. -/
structure NotificationRec where
  userId : ℕ
  message : String
  type : String
  isRead : Bool
  birthdayId : Option ℕ
  metadata : List (String × String)
  createdAt : ℤ
deriving DecidableEq, Repr

/-- Factory helper createNotification in services/notificationService.js:
builds the record and saves it; `isRead` defaults to false and `createdAt`
is set by the store at insertion time (`now`). -/
def createNotification (userId : ℕ) (message : String) (type : String)
    (metadata : List (String × String)) (birthdayId : Option ℕ)
    (now : ℤ) : NotificationRec :=
  { userId := userId, message := message, type := type, isRead := false,
    birthdayId := birthdayId, metadata := metadata, createdAt := now }

/-- Factory createBirthdayReminder in services/notificationService.js
lines 24 to 42: chooses the message by day-count and stores the decimal
string of the day-count under the metadata key daysUntil. -/
def createBirthdayReminder (userId : ℕ) (birthday : BirthdayRec)
    (daysUntil : ℤ) (now : ℤ) : NotificationRec :=
  let message :=
    if daysUntil = 0 then
      "🎉 Today is " ++ birthday.name ++ apos ++ "s birthday!"
    else if daysUntil = 1 then
      "⏰ Tomorrow is " ++ birthday.name ++ apos ++ "s birthday"
    else
      "📅 " ++ birthday.name ++ apos ++ "s birthday is in " ++
        toString daysUntil ++ " days"
  createNotification userId message "birthday"
    [("daysUntil", toString daysUntil)] (some birthday.id) now

/-- The fixed alert window set [0, 1, 3, 7] of
services/birthdayService.js line 183. -/
def window : List ℤ := [0, 1, 3, 7]

/-- Whether a stored notification matches the dedup query
Notification.findOne of services/birthdayService.js lines 185 to 190:
same user, same birthday, same metadata daysUntil string, and
createdAt at or after `now` minus 48 hours. -/
def matchesReminder (userId birthdayId : ℕ) (daysUntil : ℤ) (now : ℤ)
    (n : NotificationRec) : Bool :=
  n.userId == userId && n.birthdayId == some birthdayId &&
    n.metadata.lookup "daysUntil" == some (toString daysUntil) &&
    decide (now - 48 * 60 * 60 * 1000 ≤ n.createdAt)

/-- The dedup guard: does any stored notification match the query? -/
def existingNotification (db : List NotificationRec)
    (userId birthdayId : ℕ) (daysUntil : ℤ) (now : ℤ) : Bool :=
  db.any (matchesReminder userId birthdayId daysUntil now)

/-- Loop body of checkUpcomingBirthdays for one birthday (lines 168 to
196): compute the local daysUntil; if it is in the alert window and the
dedup guard finds nothing, append the factory record to the store.  Note
that the loop body never reads `allowNotifications`. -/
def processBirthday (today : CivilDate) (now : ℤ) (userId : ℕ)
    (b : BirthdayRec) (db : List NotificationRec) : List NotificationRec :=
  if window.contains (daysUntilOf today b.month b.day) then
    if existingNotification db userId b.id (daysUntilOf today b.month b.day)
        now then db
    else db ++ [createBirthdayReminder userId b
      (daysUntilOf today b.month b.day) now]
  else db

/-- The inner loop over the birthday list of one user. -/
def processUser (today : CivilDate) (now : ℤ) (u : UserRec)
    (db : List NotificationRec) : List NotificationRec :=
  u.birthdays.foldl (fun db b => processBirthday today now u.id b db) db

/-- Scan cycle checkUpcomingBirthdays (lines 159 to 203), error-free
path: the nested loops over all users and their birthdays.  `today` is the
midnight truncation of the cycle clock and `now` its Date.now()
reading. -/
def checkUpcomingBirthdays (users : List UserRec) (today : CivilDate)
    (now : ℤ) (db : List NotificationRec) : List NotificationRec :=
  users.foldl (fun db u => processUser today now u db) db

/-- The (account, subject) pairs visited by the nested loops, in order. -/
def subjectsOf : List UserRec → List (ℕ × BirthdayRec)
  | [] => []
  | u :: us => (u.birthdays.map fun b => (u.id, b)) ++ subjectsOf us

/-- Fold of the per-birthday loop body over a flat list of
(account, subject) pairs. -/
def processAll (today : CivilDate) (now : ℤ) (l : List (ℕ × BirthdayRec))
    (db : List NotificationRec) : List NotificationRec :=
  l.foldl (fun db p => processBirthday today now p.1 p.2 db) db

/-- Number of stored notifications matching the dedup query for one
(account, subject, day-count) key at clock reading `now`. -/
def matchCount (db : List NotificationRec) (userId birthdayId : ℕ)
    (daysUntil now : ℤ) : ℕ :=
  (db.filter (matchesReminder userId birthdayId daysUntil now)).length

/-- Two birthday records equal except possibly in `notifyBefore`. -/
def sameExceptNotifyBefore (b₁ b₂ : BirthdayRec) : Prop :=
  b₁.id = b₂.id ∧ b₁.name = b₂.name ∧ b₁.month = b₂.month ∧
    b₁.day = b₂.day ∧ b₁.allowNotifications = b₂.allowNotifications

/-- Two user records equal except possibly in the `notifyBefore` values of
their birthday lists. -/
def agreeExceptNotifyBefore (u₁ u₂ : UserRec) : Prop :=
  u₁.id = u₂.id ∧
    List.Forall₂ sameExceptNotifyBefore u₁.birthdays u₂.birthdays

/-- Loop body with a fallible dedup read.  The storage reads inside the
loop are awaited promises that can reject; `fail userId birthdayId = true`
means the Notification.findOne dedup read for that (account, subject)
pair rejects during this cycle.  The rejection point is inside the
in-window branch, exactly where the source performs the read.  An
`Except.error` carries the store as already extended by the cycle, since
earlier save calls have persisted. -/
def processBirthdayE (fail : ℕ → ℕ → Bool) (today : CivilDate) (now : ℤ)
    (userId : ℕ) (b : BirthdayRec) (db : List NotificationRec) :
    Except (List NotificationRec) (List NotificationRec) :=
  if window.contains (daysUntilOf today b.month b.day) then
    if fail userId b.id then Except.error db
    else if existingNotification db userId b.id
        (daysUntilOf today b.month b.day) now then Except.ok db
    else Except.ok (db ++ [createBirthdayReminder userId b
      (daysUntilOf today b.month b.day) now])
  else Except.ok db

/-- A loop over `l` threading the store, with abrupt exit on a rejected
await. -/
def foldE {α : Type}
    (f : List NotificationRec → α →
      Except (List NotificationRec) (List NotificationRec))
    (db : List NotificationRec) :
    List α → Except (List NotificationRec) (List NotificationRec)
  | [] => Except.ok db
  | a :: l =>
    match f db a with
    | Except.error e => Except.error e
    | Except.ok db' => foldE f db' l

/-- The inner birthday loop with fallible reads. -/
def processUserE (fail : ℕ → ℕ → Bool) (today : CivilDate) (now : ℤ)
    (u : UserRec) (db : List NotificationRec) :
    Except (List NotificationRec) (List NotificationRec) :=
  foldE (fun db b => processBirthdayE fail today now u.id b db) db u.birthdays

/-- Scan cycle with its surrounding try/catch: a rejected read aborts the
remainder of the pass; the catch only logs, so the function always
returns the store reached so far and never propagates. -/
def checkUpcomingBirthdaysE (fail : ℕ → ℕ → Bool) (users : List UserRec)
    (today : CivilDate) (now : ℤ) (db : List NotificationRec) :
    List NotificationRec :=
  match foldE (fun db u => processUserE fail today now u db) db users with
  | Except.ok db => db
  | Except.error db => db

/-- Semantics of Date(now) followed by setHours(0,0,0,0): local midnight
in the fixed-offset model. -/
def midnightOf (now : ℤ) : ℤ := msPerDay * (now / msPerDay)

/-- Scheduler delay, scheduleBirthdayChecks lines 208 to 218: take 08:00
of the current day; if `now` is strictly past it (now > eightAM), take
08:00 of the next day; the timer delay is that instant minus `now`. -/
def initialDelay (now : ℤ) : ℤ :=
  (if midnightOf now + 8 * 60 * 60 * 1000 < now then
    midnightOf now + 8 * 60 * 60 * 1000 + msPerDay
  else midnightOf now + 8 * 60 * 60 * 1000) - now

/-- Modelled from the spec: the wording of claim C7 for the delay — time
until today at the 08:00 trigger hour if that instant is still in the
future (strictly after `now`), otherwise until tomorrow at 08:00. -/
def specInitialDelay (now : ℤ) : ℤ :=
  if now < midnightOf now + 8 * 60 * 60 * 1000 then
    midnightOf now + 8 * 60 * 60 * 1000 - now
  else midnightOf now + 8 * 60 * 60 * 1000 + msPerDay - now

/-- Firing instants of setTimeout(..., initialDelay) followed by
setInterval(..., 24h): cycle `k` starts at now0 + initialDelay + 24h·k. -/
def schedulerFire (now0 : ℤ) (k : ℕ) : ℤ :=
  now0 + initialDelay now0 + msPerDay * k

/-- The store after `k` scheduler-driven cycles: each firing runs the full
cycle (with its try/catch) at its firing instant, reading the civil
calendar through the clock conversion `todayAt` of the environment. -/
def runSchedule (fail : ℕ → ℕ → Bool) (todayAt : ℤ → CivilDate)
    (users : List UserRec) (now0 : ℤ) (db : List NotificationRec) :
    ℕ → List NotificationRec
  | 0 => db
  | k + 1 =>
    checkUpcomingBirthdaysE fail users (todayAt (schedulerFire now0 k))
      (schedulerFire now0 k) (runSchedule fail todayAt users now0 db k)

/-! Sanity checks against the scenarios of spec §8. -/

example : nextOccurrence ⟨2024, 2, 10⟩ 2 17 = ⟨2024, 2, 17⟩ := by decide
example : daysUntilOf ⟨2024, 2, 10⟩ 2 17 = 7 := by decide
example : daysUntilOf ⟨2024, 2, 17⟩ 2 17 = 0 := by decide
example : normCivil 2025 1 29 = ⟨2025, 2, 1⟩ := by decide
example : nextOccurrence ⟨2024, 2, 17⟩ 0 5 = ⟨2025, 0, 5⟩ := by decide
example :
    (checkUpcomingBirthdays [⟨1, [⟨5, "Ana", 2, 17, 7, true⟩]⟩]
      ⟨2024, 2, 10⟩ 0 []).length = 1 := by decide

/-! Lemmas: the scan cycle as a fold over the flattened enumeration. -/

lemma processAll_cons (today : CivilDate) (now : ℤ) (p : ℕ × BirthdayRec)
    (l : List (ℕ × BirthdayRec)) (db : List NotificationRec) :
    processAll today now (p :: l) db =
      processAll today now l (processBirthday today now p.1 p.2 db) := rfl

lemma processAll_append (today : CivilDate) (now : ℤ)
    (l₁ l₂ : List (ℕ × BirthdayRec)) (db : List NotificationRec) :
    processAll today now (l₁ ++ l₂) db =
      processAll today now l₂ (processAll today now l₁ db) :=
  List.foldl_append ..

/-- The nested loops of checkUpcomingBirthdays visit exactly the
flattened subject enumeration. -/
lemma checkUpcomingBirthdays_eq_processAll (users : List UserRec)
    (today : CivilDate) (now : ℤ) (db : List NotificationRec) :
    checkUpcomingBirthdays users today now db =
      processAll today now (subjectsOf users) db := by
  induction users generalizing db with
  | nil => rfl
  | cons u us ih =>
    show checkUpcomingBirthdays us today now (processUser today now u db) = _
    rw [ih, subjectsOf, processAll_append]
    congr 1
    simp only [processAll, processUser, List.foldl_map]

/-! Lemmas: store growth and dedup-guard monotonicity. -/

lemma processBirthday_extends (today : CivilDate) (now : ℤ) (userId : ℕ)
    (b : BirthdayRec) (db : List NotificationRec) :
    ∃ t, processBirthday today now userId b db = db ++ t := by
  unfold processBirthday
  split
  · split
    · exact ⟨[], (List.append_nil db).symm⟩
    · exact ⟨_, rfl⟩
  · exact ⟨[], (List.append_nil db).symm⟩

lemma processAll_extends (today : CivilDate) (now : ℤ)
    (l : List (ℕ × BirthdayRec)) (db : List NotificationRec) :
    ∃ t, processAll today now l db = db ++ t := by
  induction l generalizing db with
  | nil => exact ⟨[], (List.append_nil db).symm⟩
  | cons p l ih =>
    obtain ⟨t₁, h₁⟩ := processBirthday_extends today now p.1 p.2 db
    obtain ⟨t₂, h₂⟩ := ih (processBirthday today now p.1 p.2 db)
    exact ⟨t₁ ++ t₂, by rw [processAll_cons, h₂, h₁, List.append_assoc]⟩

lemma existingNotification_append (db t : List NotificationRec)
    (userId birthdayId : ℕ) (daysUntil : ℤ) (now : ℤ)
    (h : existingNotification db userId birthdayId daysUntil now = true) :
    existingNotification (db ++ t) userId birthdayId daysUntil now = true := by
  unfold existingNotification at h ⊢
  rw [List.any_append, h, Bool.true_or]

/-- The factory record matches the dedup query for its own key: the
freshly inserted notification is found by the guard at the same `now`. -/
lemma matchesReminder_create (userId : ℕ) (b : BirthdayRec) (d now : ℤ) :
    matchesReminder userId b.id d now
      (createBirthdayReminder userId b d now) = true := by
  simp [matchesReminder, createBirthdayReminder, createNotification,
    List.lookup]

/-- After processing one subject, its own in-window key is guarded: either
the guard already fired, or the fresh insert now matches it. -/
lemma processBirthday_guards (today : CivilDate) (now : ℤ) (userId : ℕ)
    (b : BirthdayRec)
    (db : List NotificationRec)
    (hw : window.contains (daysUntilOf today b.month b.day) = true) :
    existingNotification (processBirthday today now userId b db) userId b.id
      (daysUntilOf today b.month b.day) now = true := by
  unfold processBirthday
  simp only [hw, if_true]
  split
  · assumption
  · simp only [existingNotification, List.any_append, List.any_cons,
      List.any_nil, matchesReminder_create, Bool.or_false, Bool.or_true]

/-- Every subject visited by a pass is guarded in the resulting store: if
its day-count is in the alert window, the dedup query succeeds on the
output at the same clock reading. -/
lemma processAll_guards (today : CivilDate) (now : ℤ)
    (l : List (ℕ × BirthdayRec)) (db : List NotificationRec) :
    ∀ p ∈ l, window.contains (daysUntilOf today p.2.month p.2.day) = true →
      existingNotification (processAll today now l db) p.1 p.2.id
        (daysUntilOf today p.2.month p.2.day) now = true := by
  induction l generalizing db with
  | nil => intro p hp; exact absurd hp (List.not_mem_nil p)
  | cons q l ih =>
    intro p hp hw
    rw [processAll_cons]
    rcases List.mem_cons.mp hp with h | h
    · subst h
      obtain ⟨t, ht⟩ :=
        processAll_extends today now l (processBirthday today now p.1 p.2 db)
      rw [ht]
      exact existingNotification_append _ _ _ _ _ _
        (processBirthday_guards today now p.1 p.2 db hw)
    · exact ih (processBirthday today now q.1 q.2 db) p h hw

/-- A subject whose key is already guarded contributes nothing. -/
lemma processBirthday_noop (today : CivilDate) (now : ℤ) (userId : ℕ)
    (b : BirthdayRec) (db : List NotificationRec)
    (h : window.contains (daysUntilOf today b.month b.day) = true →
      existingNotification db userId b.id (daysUntilOf today b.month b.day)
        now = true) :
    processBirthday today now userId b db = db := by
  unfold processBirthday
  cases hw : window.contains (daysUntilOf today b.month b.day) with
  | false => simp [hw]
  | true => simp [hw, h hw]

lemma processAll_noop (today : CivilDate) (now : ℤ)
    (l : List (ℕ × BirthdayRec)) (db : List NotificationRec)
    (h : ∀ p ∈ l,
      window.contains (daysUntilOf today p.2.month p.2.day) = true →
      existingNotification db p.1 p.2.id
        (daysUntilOf today p.2.month p.2.day) now = true) :
    processAll today now l db = db := by
  induction l with
  | nil => rfl
  | cons q l ih =>
    rw [processAll_cons,
      processBirthday_noop _ _ _ _ _ (h q (List.mem_cons_self q l))]
    exact ih fun p hp hw => h p (List.mem_cons_of_mem q hp) hw

/-- A second pass over the same flat list at the same clock is a no-op. -/
lemma processAll_idem (today : CivilDate) (now : ℤ)
    (l : List (ℕ × BirthdayRec)) (db : List NotificationRec) :
    processAll today now l (processAll today now l db) =
      processAll today now l db :=
  processAll_noop _ _ _ _ fun p hp hw => processAll_guards today now l db p hp hw

/-! Lemmas: the 48-hour at-most-one invariant. -/

/-- A failed dedup query means zero matches for that key. -/
lemma existing_false_matchCount (db : List NotificationRec)
    (userId birthdayId : ℕ) (daysUntil now : ℤ)
    (h : existingNotification db userId birthdayId daysUntil now = false) :
    matchCount db userId birthdayId daysUntil now = 0 := by
  unfold existingNotification at h
  unfold matchCount
  rw [List.length_eq_zero, List.filter_eq_nil_iff]
  intro a ha hcontra
  rw [List.any_eq_false] at h
  exact h a ha hcontra

/-- The query predicate depends on the day-count only through its decimal
string. -/
lemma matchesReminder_congr (userId birthdayId : ℕ) (d₁ d₂ now : ℤ)
    (h : toString d₁ = toString d₂) :
    matchesReminder userId birthdayId d₁ now =
      matchesReminder userId birthdayId d₂ now := by
  funext n; unfold matchesReminder; rw [h]

/-- If a query for some key matches a freshly built reminder, the key is
the key of the reminder (up to string form of the day-count). -/
lemma matchesReminder_create_inv (userId birthdayId uid : ℕ)
    (b : BirthdayRec) (d dp now : ℤ)
    (h : matchesReminder userId birthdayId d now
      (createBirthdayReminder uid b dp now) = true) :
    userId = uid ∧ birthdayId = b.id ∧ toString d = toString dp := by
  simp [matchesReminder, createBirthdayReminder, createNotification,
    List.lookup] at h
  exact ⟨h.1.1.symm, h.1.2.symm, h.2.symm⟩

/-- One loop-body step adds at most one in-window match per key, and only
when the key had none. -/
lemma processBirthday_matchCount (today : CivilDate) (now : ℤ) (uid : ℕ)
    (b : BirthdayRec) (db : List NotificationRec)
    (userId birthdayId : ℕ) (d : ℤ) :
    matchCount (processBirthday today now uid b db) userId birthdayId d now
      ≤ max (matchCount db userId birthdayId d now) 1 := by
  unfold processBirthday
  split
  · split
    · exact le_max_left _ _
    · rename_i hex
      simp only [matchCount, List.filter_append, List.length_append]
      by_cases hm : matchesReminder userId birthdayId d now
          (createBirthdayReminder uid b (daysUntilOf today b.month b.day)
            now) = true
      · obtain ⟨h₁, h₂, h₃⟩ := matchesReminder_create_inv _ _ _ _ _ _ _ hm
        subst h₁; subst h₂
        have h0 : matchCount db userId b.id d now = 0 := by
          rw [matchCount, matchesReminder_congr userId b.id d
            (daysUntilOf today b.month b.day) now h₃, ← matchCount]
          exact existing_false_matchCount _ _ _ _ _
            (Bool.not_eq_true _ ▸ hex)
        simp only [matchCount] at h0
        rw [h0]
        simp [List.filter_cons, hm]
      · simp [List.filter_cons, hm]
  · exact le_max_left _ _

/-- A whole pass leaves at most max (previous matches) 1 in-window matches
per key. -/
lemma processAll_matchCount (today : CivilDate) (now : ℤ)
    (l : List (ℕ × BirthdayRec)) (db : List NotificationRec)
    (userId birthdayId : ℕ) (d : ℤ) :
    matchCount (processAll today now l db) userId birthdayId d now
      ≤ max (matchCount db userId birthdayId d now) 1 := by
  induction l generalizing db with
  | nil => exact le_max_left _ _
  | cons q l ih =>
    rw [processAll_cons]
    exact le_trans (ih (processBirthday today now q.1 q.2 db))
      (max_le (processBirthday_matchCount today now q.1 q.2 db _ _ _)
        (le_max_right _ _))

/-- C1: the dedup contract of the scan cycle.  (i) Running the scan cycle
twice in immediate succession (same `today`, same clock reading) creates
no new notifications on the second run.  (ii) For every
(account, subject, day-count) key, the number of notifications matching
that key with createdAt inside the trailing 48-hour window measured at
the clock reading of the cycle never exceeds max (previous matches) 1 — a
cycle only inserts for a key when no in-window match exists, so a key
entering with no in-window match leaves with at most one. -/
theorem C1_dedup_window (users : List UserRec) (today : CivilDate)
    (now : ℤ) (db : List NotificationRec) :
    checkUpcomingBirthdays users today now
        (checkUpcomingBirthdays users today now db) =
      checkUpcomingBirthdays users today now db ∧
    ∀ userId birthdayId : ℕ, ∀ daysUntil : ℤ,
      matchCount (checkUpcomingBirthdays users today now db)
          userId birthdayId daysUntil now
        ≤ max (matchCount db userId birthdayId daysUntil now) 1 := by
  constructor
  · rw [checkUpcomingBirthdays_eq_processAll,
      checkUpcomingBirthdays_eq_processAll]
    exact processAll_idem today now (subjectsOf users) db
  · intro userId birthdayId daysUntil
    rw [checkUpcomingBirthdays_eq_processAll]
    exact processAll_matchCount today now (subjectsOf users) db
      userId birthdayId daysUntil

/-- C8: the factory produces present-tense today phrasing for day-count 0,
tomorrow phrasing for day-count 1, and the "in n days" phrasing for any
other day-count; its metadata maps the daysUntil key to the decimal string
of the day-count; the record carries the fixed category tag birthday. -/
theorem C8_factory_message (userId : ℕ) (b : BirthdayRec)
    (daysUntil now : ℤ) :
    (createBirthdayReminder userId b daysUntil now).message =
      (if daysUntil = 0 then
        "🎉 Today is " ++ b.name ++ apos ++ "s birthday!"
      else if daysUntil = 1 then
        "⏰ Tomorrow is " ++ b.name ++ apos ++ "s birthday"
      else
        "📅 " ++ b.name ++ apos ++ "s birthday is in " ++
          toString daysUntil ++ " days") ∧
    (createBirthdayReminder userId b daysUntil now).metadata.lookup
        "daysUntil" = some (toString daysUntil) ∧
    (createBirthdayReminder userId b daysUntil now).type = "birthday" := by
  refine ⟨rfl, ?_, rfl⟩
  simp [createBirthdayReminder, createNotification, List.lookup]

/-- C2 (code bug): the loop body of checkUpcomingBirthdays never reads the
`allowNotifications` flag of the subject, so a subject with alerts
disabled and day-count 0 still gets a notification.  Concretely: one user
with one disabled birthday record falling due today produces one inserted
reminder. -/
theorem C2_disabled_subject_still_notified :
    (⟨5, "Bob", 2, 17, 7, false⟩ : BirthdayRec).allowNotifications = false ∧
    checkUpcomingBirthdays [⟨1, [⟨5, "Bob", 2, 17, 7, false⟩]⟩]
        ⟨2024, 2, 17⟩ 0 []
      = [createBirthdayReminder 1 ⟨5, "Bob", 2, 17, 7, false⟩ 0 0] :=
  ⟨rfl, rfl⟩

/-! Lemmas: congruence in everything but notifyBefore. -/

lemma processBirthday_congr (today : CivilDate) (now : ℤ) (userId : ℕ)
    {b₁ b₂ : BirthdayRec} (h : sameExceptNotifyBefore b₁ b₂)
    (db : List NotificationRec) :
    processBirthday today now userId b₁ db =
      processBirthday today now userId b₂ db := by
  obtain ⟨h₁, h₂, h₃, h₄, h₅⟩ := h
  unfold processBirthday createBirthdayReminder createNotification
  rw [h₁, h₂, h₃, h₄]

lemma foldl_processBirthday_congr (today : CivilDate) (now : ℤ)
    (userId : ℕ) :
    ∀ {l₁ l₂ : List BirthdayRec},
      List.Forall₂ sameExceptNotifyBefore l₁ l₂ →
      ∀ db, l₁.foldl (fun db b => processBirthday today now userId b db) db =
        l₂.foldl (fun db b => processBirthday today now userId b db) db := by
  intro l₁ l₂ hf
  induction hf with
  | nil => intro db; rfl
  | cons hb ht ih =>
    intro db
    simp only [List.foldl_cons]
    rw [processBirthday_congr _ _ _ hb]
    exact ih _

lemma processUser_congr (today : CivilDate) (now : ℤ)
    {u₁ u₂ : UserRec} (h : agreeExceptNotifyBefore u₁ u₂)
    (db : List NotificationRec) :
    processUser today now u₁ db = processUser today now u₂ db := by
  obtain ⟨hid, hf⟩ := h
  unfold processUser
  simp only [hid]
  exact foldl_processBirthday_congr today now u₂.id hf db

/-- C10: noninterference of the notifyBefore preference.  Two stores that
differ only in notifyBefore values yield identical scan-cycle results at
any instant — the preference has no effect on which day-counts trigger an
alert. -/
theorem C10_notifyBefore_noninterference {users₁ users₂ : List UserRec}
    (h : List.Forall₂ agreeExceptNotifyBefore users₁ users₂)
    (today : CivilDate) (now : ℤ) (db : List NotificationRec) :
    checkUpcomingBirthdays users₁ today now db =
      checkUpcomingBirthdays users₂ today now db := by
  unfold checkUpcomingBirthdays
  induction h generalizing db with
  | nil => rfl
  | cons hu ht ih =>
    simp only [List.foldl_cons]
    rw [processUser_congr _ _ hu]
    exact ih _

/-- Witness for C10 at a concrete pair of stores differing only in one
notifyBefore value. -/
theorem C10_notifyBefore_noninterference_witness :
    checkUpcomingBirthdays [⟨1, [⟨5, "Ana", 2, 17, 7, true⟩]⟩]
        ⟨2024, 2, 10⟩ 0 [] =
      checkUpcomingBirthdays [⟨1, [⟨5, "Ana", 2, 17, 30, true⟩]⟩]
        ⟨2024, 2, 10⟩ 0 [] :=
  C10_notifyBefore_noninterference
    (List.Forall₂.cons
      ⟨rfl, List.Forall₂.cons ⟨rfl, rfl, rfl, rfl, rfl⟩ List.Forall₂.nil⟩
      List.Forall₂.nil)
    ⟨2024, 2, 10⟩ 0 []

/-! Lemmas: what a pass can append. -/

/-- One loop-body step either leaves the store unchanged or appends
exactly the factory record for an in-window day-count. -/
lemma processBirthday_new (today : CivilDate) (now : ℤ) (userId : ℕ)
    (b : BirthdayRec) (db : List NotificationRec) :
    processBirthday today now userId b db = db ∨
      (processBirthday today now userId b db = db ++
          [createBirthdayReminder userId b
            (daysUntilOf today b.month b.day) now] ∧
        window.contains (daysUntilOf today b.month b.day) = true) := by
  unfold processBirthday
  by_cases hw : window.contains (daysUntilOf today b.month b.day) = true
  · rw [if_pos hw]
    by_cases hex : existingNotification db userId b.id
        (daysUntilOf today b.month b.day) now = true
    · rw [if_pos hex]; exact Or.inl rfl
    · rw [if_neg hex]; exact Or.inr ⟨rfl, hw⟩
  · rw [if_neg hw]; exact Or.inl rfl

/-- Characterization of what a pass appends: only factory records for
subjects of the enumeration whose day-count is in the alert window. -/
lemma processAll_new (today : CivilDate) (now : ℤ)
    (l : List (ℕ × BirthdayRec)) (db : List NotificationRec) :
    ∃ t, processAll today now l db = db ++ t ∧
      ∀ n ∈ t, ∃ p ∈ l,
        n = createBirthdayReminder p.1 p.2
          (daysUntilOf today p.2.month p.2.day) now ∧
        window.contains (daysUntilOf today p.2.month p.2.day) = true := by
  induction l generalizing db with
  | nil =>
    exact ⟨[], (List.append_nil db).symm, by intro n hn; cases hn⟩
  | cons q l ih =>
    rcases processBirthday_new today now q.1 q.2 db with h | ⟨h, hw⟩
    · obtain ⟨t, ht, hchar⟩ := ih db
      refine ⟨t, by rw [processAll_cons, h, ht], fun n hn => ?_⟩
      obtain ⟨p, hp, he⟩ := hchar n hn
      exact ⟨p, List.mem_cons_of_mem q hp, he⟩
    · obtain ⟨t, ht, hchar⟩ := ih (db ++
        [createBirthdayReminder q.1 q.2
          (daysUntilOf today q.2.month q.2.day) now])
      refine ⟨createBirthdayReminder q.1 q.2
          (daysUntilOf today q.2.month q.2.day) now :: t, ?_, fun n hn => ?_⟩
      · rw [processAll_cons, h, ht, List.append_assoc]
        rfl
      · rcases List.mem_cons.mp hn with hn | hn
        · exact ⟨q, List.mem_cons_self q l, hn, hw⟩
        · obtain ⟨p, hp, he⟩ := hchar n hn
          exact ⟨p, List.mem_cons_of_mem q hp, he⟩

/-- C3: alert windows are exactly 0, 1, 3, 7.  (i) A subject (in
particular one with alerts enabled) whose day-count is not a member of
the window — 2, 4, 5, 6, or 8 and more days out — contributes nothing
when the loop body visits it.  (ii) Every notification a cycle appends is
the factory record of some enumerated subject whose day-count is a member
of the window. -/
theorem C3_alert_window_exact (users : List UserRec) (today : CivilDate)
    (now : ℤ) (db : List NotificationRec) :
    (∀ (userId : ℕ) (b : BirthdayRec) (dbx : List NotificationRec),
      b.allowNotifications = true →
      window.contains (daysUntilOf today b.month b.day) = false →
      processBirthday today now userId b dbx = dbx) ∧
    ∃ created, checkUpcomingBirthdays users today now db = db ++ created ∧
      ∀ n ∈ created, ∃ p ∈ subjectsOf users,
        n = createBirthdayReminder p.1 p.2
          (daysUntilOf today p.2.month p.2.day) now ∧
        window.contains (daysUntilOf today p.2.month p.2.day) = true := by
  constructor
  · intro userId b dbx _ hw
    unfold processBirthday
    rw [if_neg (by simpa using hw)]
  · rw [checkUpcomingBirthdays_eq_processAll]
    exact processAll_new today now (subjectsOf users) db

/-- Witness for C3: an enabled subject 5 days out produces nothing. -/
theorem C3_alert_window_exact_witness :
    processBirthday ⟨2024, 2, 17⟩ 0 1 ⟨5, "Ana", 2, 22, 7, true⟩ [] = [] :=
  (C3_alert_window_exact [] ⟨2024, 2, 17⟩ 0 []).1 1
    ⟨5, "Ana", 2, 22, 7, true⟩ [] rfl (by decide)

/-! Lemmas: the fallible cycle refines the pure one. -/

lemma processBirthdayE_ok (fail : ℕ → ℕ → Bool) (today : CivilDate)
    (now : ℤ) (userId : ℕ) (b : BirthdayRec) (db : List NotificationRec)
    (hf : fail userId b.id = false) :
    processBirthdayE fail today now userId b db =
      Except.ok (processBirthday today now userId b db) := by
  unfold processBirthdayE processBirthday
  rw [hf]
  split
  · rw [if_neg Bool.false_ne_true]
    split <;> rfl
  · rfl

lemma processBirthdayE_error (fail : ℕ → ℕ → Bool) (today : CivilDate)
    (now : ℤ) (userId : ℕ) (b : BirthdayRec) (db : List NotificationRec)
    (hfail : fail userId b.id = true)
    (hw : window.contains (daysUntilOf today b.month b.day) = true) :
    processBirthdayE fail today now userId b db = Except.error db := by
  unfold processBirthdayE
  rw [if_pos hw, if_pos hfail]

lemma foldE_append {α : Type}
    (f : List NotificationRec → α →
      Except (List NotificationRec) (List NotificationRec))
    (db : List NotificationRec) (l₁ l₂ : List α) :
    foldE f db (l₁ ++ l₂) =
      match foldE f db l₁ with
      | Except.error e => Except.error e
      | Except.ok db' => foldE f db' l₂ := by
  induction l₁ generalizing db with
  | nil => rfl
  | cons a l ih =>
    simp only [List.cons_append, foldE]
    cases f db a
    · rfl
    · exact ih _

lemma foldE_birthdays_ok (fail : ℕ → ℕ → Bool) (today : CivilDate)
    (now : ℤ) (userId : ℕ) (l : List BirthdayRec)
    (db : List NotificationRec)
    (h : ∀ b ∈ l, fail userId b.id = false) :
    foldE (fun db b => processBirthdayE fail today now userId b db) db l =
      Except.ok
        (l.foldl (fun db b => processBirthday today now userId b db) db) := by
  induction l generalizing db with
  | nil => rfl
  | cons b l ih =>
    simp only [foldE]
    rw [processBirthdayE_ok _ _ _ _ _ _ (h b (List.mem_cons_self b l))]
    exact ih _ fun b' hb => h b' (List.mem_cons_of_mem b hb)

lemma foldE_users_ok (fail : ℕ → ℕ → Bool) (today : CivilDate) (now : ℤ)
    (us : List UserRec) (db : List NotificationRec)
    (h : ∀ u ∈ us, ∀ b ∈ u.birthdays, fail u.id b.id = false) :
    foldE (fun db u => processUserE fail today now u db) db us =
      Except.ok (checkUpcomingBirthdays us today now db) := by
  induction us generalizing db with
  | nil => rfl
  | cons u us ih =>
    simp only [foldE]
    rw [show processUserE fail today now u db =
        Except.ok (processUser today now u db) from
      foldE_birthdays_ok fail today now u.id u.birthdays db
        (h u (List.mem_cons_self u us))]
    exact ih _ fun u' hu b hb => h u' (List.mem_cons_of_mem u hu) b hb

lemma processUserE_error (fail : ℕ → ℕ → Bool) (today : CivilDate)
    (now : ℤ) (u : UserRec) (bs₁ bs₂ : List BirthdayRec) (b : BirthdayRec)
    (db : List NotificationRec)
    (hb : u.birthdays = bs₁ ++ b :: bs₂)
    (h₂ : ∀ b' ∈ bs₁, fail u.id b'.id = false)
    (hfail : fail u.id b.id = true)
    (hw : window.contains (daysUntilOf today b.month b.day) = true) :
    processUserE fail today now u db =
      Except.error
        (bs₁.foldl (fun db b => processBirthday today now u.id b db) db) := by
  unfold processUserE
  rw [hb, foldE_append, foldE_birthdays_ok _ _ _ _ _ _ h₂]
  simp only [foldE]
  rw [processBirthdayE_error _ _ _ _ _ _ hfail hw]

/-- C6: failure isolation.  If the storage read for one in-window subject
rejects mid-cycle while the reads of every earlier subject succeed, the
cycle returns (it never propagates and never exits the process) with the
store equal to the pure scan over exactly the subjects processed before
the failure — the remaining subjects of that pass are not processed, and
every notification created earlier in the same cycle is kept, with no
rollback (the input store is a prefix of the result). -/
theorem C6_failure_isolation (fail : ℕ → ℕ → Bool) (today : CivilDate)
    (now : ℤ) (db : List NotificationRec) (us₁ : List UserRec) (u : UserRec)
    (bs₁ bs₂ : List BirthdayRec) (b : BirthdayRec) (us₂ : List UserRec)
    (h₁ : ∀ u' ∈ us₁, ∀ b' ∈ u'.birthdays, fail u'.id b'.id = false)
    (h₂ : ∀ b' ∈ bs₁, fail u.id b'.id = false)
    (hb : u.birthdays = bs₁ ++ b :: bs₂)
    (hfail : fail u.id b.id = true)
    (hw : window.contains (daysUntilOf today b.month b.day) = true) :
    checkUpcomingBirthdaysE fail (us₁ ++ u :: us₂) today now db =
      checkUpcomingBirthdays (us₁ ++ [⟨u.id, bs₁⟩]) today now db ∧
    ∃ t, checkUpcomingBirthdaysE fail (us₁ ++ u :: us₂) today now db =
      db ++ t := by
  have hsplit : checkUpcomingBirthdays (us₁ ++ [⟨u.id, bs₁⟩]) today now db =
      bs₁.foldl (fun db b => processBirthday today now u.id b db)
        (checkUpcomingBirthdays us₁ today now db) := by
    unfold checkUpcomingBirthdays
    rw [List.foldl_append]
    rfl
  have hmain : checkUpcomingBirthdaysE fail (us₁ ++ u :: us₂) today now db =
      checkUpcomingBirthdays (us₁ ++ [⟨u.id, bs₁⟩]) today now db := by
    unfold checkUpcomingBirthdaysE
    rw [foldE_append, foldE_users_ok _ _ _ _ _ h₁]
    simp only [foldE]
    rw [processUserE_error _ _ _ _ _ _ _ _ hb h₂ hfail hw, hsplit]
  refine ⟨hmain, ?_⟩
  rw [hmain, hsplit]
  obtain ⟨t₁, ht₁⟩ := processAll_extends today now (subjectsOf us₁) db
  rw [← checkUpcomingBirthdays_eq_processAll] at ht₁
  obtain ⟨t₂, ht₂⟩ := processAll_extends today now
    (bs₁.map fun b => (u.id, b)) (checkUpcomingBirthdays us₁ today now db)
  refine ⟨t₁ ++ t₂, ?_⟩
  have hfold : bs₁.foldl (fun db b => processBirthday today now u.id b db)
      (checkUpcomingBirthdays us₁ today now db) =
      processAll today now (bs₁.map fun b => (u.id, b))
        (checkUpcomingBirthdays us₁ today now db) := by
    simp only [processAll, List.foldl_map]
  rw [hfold, ht₂, ht₁, List.append_assoc]

/-- Witness for C6: two users; the read for the (in-window) subject of the
second user rejects; the result equals the pure scan over the first user
only, and the freshly created reminder of the first user is kept. -/
theorem C6_failure_isolation_witness :
    checkUpcomingBirthdaysE (fun _ bid => bid == 6)
        [⟨1, [⟨5, "Ana", 2, 17, 7, true⟩]⟩, ⟨2, [⟨6, "Bob", 2, 11, 7, true⟩]⟩]
        ⟨2024, 2, 10⟩ 0 [] =
      checkUpcomingBirthdays
        [⟨1, [⟨5, "Ana", 2, 17, 7, true⟩]⟩, ⟨2, ([] : List BirthdayRec)⟩]
        ⟨2024, 2, 10⟩ 0 [] ∧
    ∃ t, checkUpcomingBirthdaysE (fun _ bid => bid == 6)
        [⟨1, [⟨5, "Ana", 2, 17, 7, true⟩]⟩, ⟨2, [⟨6, "Bob", 2, 11, 7, true⟩]⟩]
        ⟨2024, 2, 10⟩ 0 [] = [] ++ t :=
  C6_failure_isolation (fun _ bid => bid == 6) ⟨2024, 2, 10⟩ 0 []
    [⟨1, [⟨5, "Ana", 2, 17, 7, true⟩]⟩] ⟨2, [⟨6, "Bob", 2, 11, 7, true⟩]⟩
    [] [] ⟨6, "Bob", 2, 11, 7, true⟩ []
    (by decide) (by decide) rfl (by decide) (by decide)

/-- Counterexample to C7 as stated: at 08:00:00.000 sharp the trigger
instant is not still in the future, so the claim says the delay runs
until tomorrow (24 h), but the strict now > eightAM test of the code
schedules the first run immediately (delay 0). -/
theorem C7_counterexample :
    initialDelay 28800000 = 0 ∧ specInitialDelay 28800000 = 86400000 ∧
      initialDelay 28800000 ≠ specInitialDelay 28800000 := by decide

/-- C7 (amended): the initial delay runs until today at 08:00 when that
instant has not yet passed (now ≤ eightAM), otherwise until tomorrow at
08:00; thereafter the cycle fires on a fixed 24-hour period, and firing
k+1 runs the cycle at the scheduled instant for every failure pattern
whatsoever — no error in a prior cycle cancels or reschedules the
periodic trigger. -/
theorem C7_scheduler (now0 : ℤ) :
    (initialDelay now0 =
      if now0 ≤ midnightOf now0 + 28800000 then
        midnightOf now0 + 28800000 - now0
      else midnightOf now0 + 28800000 + msPerDay - now0) ∧
    (∀ k : ℕ, schedulerFire now0 (k + 1) = schedulerFire now0 k + msPerDay) ∧
    (∀ (fail : ℕ → ℕ → Bool) (todayAt : ℤ → CivilDate)
        (users : List UserRec) (db : List NotificationRec) (k : ℕ),
      runSchedule fail todayAt users now0 db (k + 1) =
        checkUpcomingBirthdaysE fail users (todayAt (schedulerFire now0 k))
          (schedulerFire now0 k) (runSchedule fail todayAt users now0 db k)) := by
  refine ⟨?_, ?_, fun _ _ _ _ _ => rfl⟩
  · unfold initialDelay
    split_ifs <;> omega
  · intro k
    unfold schedulerFire
    push_cast
    ring

/-! Lemmas: bounds on the calendar arithmetic. -/

lemma isLeap_iff (y : ℤ) :
    isLeap y = true ↔ (y % 4 = 0 ∧ ¬y % 100 = 0) ∨ y % 400 = 0 := by
  simp [isLeap]

lemma daysBeforeYear_succ (y : ℤ) :
    daysBeforeYear (y + 1) = daysBeforeYear y + 365 + leapDay y := by
  unfold leapDay
  by_cases hl : isLeap y = true
  · rw [if_pos hl]
    have hc := (isLeap_iff y).mp hl
    unfold daysBeforeYear leapsBefore
    omega
  · rw [if_neg hl]
    have hc : ¬((y % 4 = 0 ∧ ¬y % 100 = 0) ∨ y % 400 = 0) := fun h =>
      hl ((isLeap_iff y).mpr h)
    unfold daysBeforeYear leapsBefore
    omega

lemma daysInMonth_bounds (y m : ℤ) :
    28 ≤ daysInMonth y m ∧ daysInMonth y m ≤ 31 := by
  unfold daysInMonth
  split_ifs <;> omega

lemma leapDay_bounds (y : ℤ) : 0 ≤ leapDay y ∧ leapDay y ≤ 1 := by
  unfold leapDay
  split_ifs <;> omega

lemma daysBeforeMonth_nonneg (y m : ℤ) : 0 ≤ daysBeforeMonth y m := by
  have hld := leapDay_bounds y
  unfold daysBeforeMonth
  omega

lemma daysBeforeMonth_add_le (y m : ℤ) :
    daysBeforeMonth y m + daysInMonth y m ≤ 365 + leapDay y := by
  have hld := leapDay_bounds y
  have hdm := daysInMonth_bounds y m
  unfold daysBeforeMonth
  omega

lemma toDayNum_lower (c : CivilDate) (h : ValidCivil c) :
    daysBeforeYear c.year ≤ toDayNum c := by
  obtain ⟨_, _, _, hd1, _⟩ := h
  have := daysBeforeMonth_nonneg c.year c.month
  unfold toDayNum
  omega

lemma toDayNum_upper (c : CivilDate) (h : ValidCivil c) :
    toDayNum c < daysBeforeYear (c.year + 1) := by
  obtain ⟨hy, hm0, hm1, hd1, hd2⟩ := h
  have h1 := daysBeforeMonth_add_le c.year c.month
  have h2 := daysBeforeYear_succ c.year
  unfold toDayNum
  omega

/-- For the argument ranges the scan can produce, normCivil yields a
valid date of the requested year. -/
lemma normCivil_valid (y m d : ℤ) (hy : 0 ≤ y) (hm0 : 0 ≤ m) (hm1 : m ≤ 11)
    (hd1 : 1 ≤ d) (hd2 : d ≤ 31) :
    ValidCivil (normCivil y m d) ∧ (normCivil y m d).year = y := by
  have hb := daysInMonth_bounds y m
  have hb2 := daysInMonth_bounds y (m + 1)
  unfold normCivil
  split_ifs with h1 h2
  · exact ⟨⟨hy, hm0, hm1, hd1, h1⟩, rfl⟩
  · refine ⟨⟨hy, ?_, ?_, ?_, ?_⟩, rfl⟩ <;> dsimp only <;> omega
  · exfalso
    have h31 : daysInMonth y m = 31 := by
      unfold daysInMonth
      split_ifs <;> omega
    omega

/-- The occurrence calculator returns a valid date at or after `today`
whose year is the year of `today` or the next one. -/
lemma nextOccurrence_spec (today : CivilDate) (bm bd : ℤ)
    (ht : ValidCivil today) (hm0 : 0 ≤ bm) (hm1 : bm ≤ 11)
    (hd1 : 1 ≤ bd) (hd2 : bd ≤ 31) :
    ValidCivil (nextOccurrence today bm bd) ∧
    toDayNum today ≤ toDayNum (nextOccurrence today bm bd) ∧
    ((nextOccurrence today bm bd).year = today.year ∨
      (nextOccurrence today bm bd).year = today.year + 1) := by
  have hy : 0 ≤ today.year := ht.1
  obtain ⟨hv0, hyr0⟩ := normCivil_valid today.year bm bd hy hm0 hm1 hd1 hd2
  simp only [nextOccurrence]
  by_cases hcmp : jsTime (normCivil today.year bm bd) < jsTime today
  · rw [if_pos hcmp]
    obtain ⟨hv1, hyr1⟩ := normCivil_valid (today.year + 1)
      (normCivil today.year bm bd).month (normCivil today.year bm bd).day
      (by omega) hv0.2.1 hv0.2.2.1 hv0.2.2.2.1
      (le_trans hv0.2.2.2.2 (daysInMonth_bounds _ _).2)
    refine ⟨hv1, ?_, Or.inr hyr1⟩
    have hu := toDayNum_upper today ht
    have hl := toDayNum_lower _ hv1
    rw [hyr1] at hl
    omega
  · rw [if_neg hcmp]
    refine ⟨hv0, ?_, Or.inl hyr0⟩
    unfold jsTime msPerDay at hcmp
    omega

/-- Ceiling of an exact whole-day difference is the day difference. -/
lemma daysUntilOf_eq (today : CivilDate) (bm bd : ℤ) :
    daysUntilOf today bm bd =
      toDayNum (nextOccurrence today bm bd) - toDayNum today := by
  unfold daysUntilOf ceilDiv jsTime msPerDay
  have h : -(86400000 * toDayNum (nextOccurrence today bm bd) -
      86400000 * toDayNum today) =
      86400000 * (toDayNum today - toDayNum (nextOccurrence today bm bd)) := by
    ring
  rw [h, Int.mul_ediv_cancel_left _ (by norm_num : (86400000 : ℤ) ≠ 0)]
  ring

/-- C4: for every valid reference date and every stored month/day in the
ranges getMonth / getDate can return, the computed next occurrence is at
or after `today` (as instants), its year is the year of `today` or that
year plus one, and the calculator leaves the year-combined date unchanged
whenever that date is not strictly before `today` (it advances the year
only on a strictly earlier date). -/
theorem C4_nextOccurrence_bounds (today : CivilDate) (bm bd : ℤ)
    (ht : ValidCivil today) (hm0 : 0 ≤ bm) (hm1 : bm ≤ 11)
    (hd1 : 1 ≤ bd) (hd2 : bd ≤ 31) :
    jsTime today ≤ jsTime (nextOccurrence today bm bd) ∧
    ((nextOccurrence today bm bd).year = today.year ∨
      (nextOccurrence today bm bd).year = today.year + 1) ∧
    (¬jsTime (normCivil today.year bm bd) < jsTime today →
      nextOccurrence today bm bd = normCivil today.year bm bd) := by
  obtain ⟨_, hle, hyr⟩ := nextOccurrence_spec today bm bd ht hm0 hm1 hd1 hd2
  refine ⟨?_, hyr, ?_⟩
  · unfold jsTime msPerDay
    omega
  · intro hcmp
    simp only [nextOccurrence]
    rw [if_neg hcmp]

/-- Witness for C4 at today = 2024-03-17 and a subject recurring on
January 5 (already passed, so next year). -/
theorem C4_nextOccurrence_bounds_witness :
    jsTime ⟨2024, 2, 17⟩ ≤ jsTime (nextOccurrence ⟨2024, 2, 17⟩ 0 5) ∧
    ((nextOccurrence ⟨2024, 2, 17⟩ 0 5).year = (⟨2024, 2, 17⟩ : CivilDate).year ∨
      (nextOccurrence ⟨2024, 2, 17⟩ 0 5).year =
        (⟨2024, 2, 17⟩ : CivilDate).year + 1) ∧
    (¬jsTime (normCivil (⟨2024, 2, 17⟩ : CivilDate).year 0 5) <
        jsTime ⟨2024, 2, 17⟩ →
      nextOccurrence ⟨2024, 2, 17⟩ 0 5 =
        normCivil (⟨2024, 2, 17⟩ : CivilDate).year 0 5) :=
  C4_nextOccurrence_bounds ⟨2024, 2, 17⟩ 0 5 (by decide) (by decide)
    (by decide) (by decide) (by decide)

/-- C5: the computed day-count is a non-negative integer, and it is 0
exactly when the next occurrence is the instant of `today`. -/
theorem C5_daysUntil_nonneg_iff_today (today : CivilDate) (bm bd : ℤ)
    (ht : ValidCivil today) (hm0 : 0 ≤ bm) (hm1 : bm ≤ 11)
    (hd1 : 1 ≤ bd) (hd2 : bd ≤ 31) :
    0 ≤ daysUntilOf today bm bd ∧
    (daysUntilOf today bm bd = 0 ↔
      jsTime (nextOccurrence today bm bd) = jsTime today) := by
  obtain ⟨_, hle, _⟩ := nextOccurrence_spec today bm bd ht hm0 hm1 hd1 hd2
  rw [daysUntilOf_eq]
  unfold jsTime msPerDay
  constructor
  · omega
  · omega

/-- Witness for C5 at today = 2024-03-17, subject recurring March 17. -/
theorem C5_daysUntil_nonneg_iff_today_witness :
    0 ≤ daysUntilOf ⟨2024, 2, 17⟩ 2 17 ∧
    (daysUntilOf ⟨2024, 2, 17⟩ 2 17 = 0 ↔
      jsTime (nextOccurrence ⟨2024, 2, 17⟩ 2 17) = jsTime ⟨2024, 2, 17⟩) :=
  C5_daysUntil_nonneg_iff_today ⟨2024, 2, 17⟩ 2 17 (by decide) (by decide)
    (by decide) (by decide) (by decide)

/-- C9: a subject stored as February 29 (0-based month 1, day 29) in a
non-leap reference year: Date(year, 1, 29) rolls over to March 1
(0-based month 2, day 1), and if that March 1 has not passed, it is the
next occurrence, with the day-count measured against it. -/
theorem C9_feb29_rolls_to_march1 (today : CivilDate)
    (_ht : ValidCivil today) (hnl : isLeap today.year = false)
    (hcmp : jsTime today ≤ jsTime (⟨today.year, 2, 1⟩ : CivilDate)) :
    nextOccurrence today 1 29 = ⟨today.year, 2, 1⟩ ∧
    daysUntilOf today 1 29 = toDayNum ⟨today.year, 2, 1⟩ - toDayNum today := by
  have hnorm : normCivil today.year 1 29 = ⟨today.year, 2, 1⟩ := by
    unfold normCivil daysInMonth
    rw [hnl]
    norm_num
  have hnext : nextOccurrence today 1 29 = ⟨today.year, 2, 1⟩ := by
    simp only [nextOccurrence, hnorm]
    rw [if_neg (by omega)]
  refine ⟨hnext, ?_⟩
  rw [daysUntilOf_eq, hnext]

/-- Witness for C9 at today = 2025-01-15 (2025 is not a leap year). -/
theorem C9_feb29_rolls_to_march1_witness :
    nextOccurrence ⟨2025, 0, 15⟩ 1 29 =
      ⟨(⟨2025, 0, 15⟩ : CivilDate).year, 2, 1⟩ ∧
    daysUntilOf ⟨2025, 0, 15⟩ 1 29 =
      toDayNum ⟨(⟨2025, 0, 15⟩ : CivilDate).year, 2, 1⟩ -
        toDayNum ⟨2025, 0, 15⟩ :=
  C9_feb29_rolls_to_march1 ⟨2025, 0, 15⟩ (by decide) (by decide) (by decide)
